import Mathlib

/-!
Verification of the node-scad-parser repository: a shallow embedding of the
lexing-to-AST pipeline (src/src/index.js, lib/ast, the token table in
nearley/tokens) together with proofs about error classification, code-excerpt
rendering, the node-tree parent invariant, token filtering, and the auxiliary
lookup interfaces.

Machine integers are modelled as `Nat`/`Int`; strings are processed through
their underlying character lists so that every definition evaluates by kernel
reduction.
-/

set_option autoImplicit false

namespace Scad

/-! ## Character helpers (JavaScript regex character classes) -/

/-- Characters matched by the JavaScript regex class `\s` (ASCII part). -/
def jsSpaceChar (c : Char) : Bool :=
  c = ' ' || c = '\t' || c = '\n' || c = '\r' || c = '\x0b' || c = '\x0c'

/-- Characters matched by the JavaScript regex `.` (it excludes line
terminators `\n`, `\r`, U+2028 and U+2029). -/
def jsDotChar (c : Char) : Bool :=
  !(c = '\n' || c = '\r' || c = '\u2028' || c = '\u2029')

/-- First character of an identifier, per the regex `[A-Za-z_$]` in
nearley/tokens. -/
def identStartChar (c : Char) : Bool :=
  c.isAlpha || c = '_' || c = '$'

/-- Later characters of an identifier, per the regex `[A-Za-z0-9_]`. -/
def identTailChar (c : Char) : Bool :=
  c.isAlpha || c.isDigit || c = '_'

/-- Action-call modifier characters, per the regex class `[!#*%]`. -/
def modifierChar (c : Char) : Bool :=
  c = '!' || c = '#' || c = '*' || c = '%'

/-- Characters removed by JavaScript `String.prototype.trim` (ASCII part). -/
def jsTrimChar (c : Char) : Bool :=
  c = ' ' || c = '\t' || c = '\n' || c = '\r' || c = '\x0b' || c = '\x0c'

/-- Length of the longest prefix of `l` whose characters satisfy `p`. -/
def countWhile (p : Char → Bool) : List Char → Nat
  | [] => 0
  | c :: cs => if p c then countWhile p cs + 1 else 0

/-- Index of the last occurrence of `c` in `l`, if any. -/
def lastIdxOf (c : Char) : List Char → Option Nat
  | [] => none
  | x :: xs =>
    match lastIdxOf c xs with
    | some i => some (i + 1)
    | none => if x = c then some 0 else none

/-- First index at which `pat` occurs as a contiguous sublist of `l`. -/
def findSub (pat : List Char) : List Char → Option Nat
  | [] => if pat.isEmpty then some 0 else none
  | x :: xs =>
    if pat.isPrefixOf (x :: xs) then some 0
    else (findSub pat xs).map (· + 1)

/-- JavaScript `String.prototype.trim` on both ends. -/
def jsTrim (s : String) : String :=
  String.mk (((s.data.dropWhile jsTrimChar).reverse.dropWhile jsTrimChar).reverse)

/-- String consisting of `n` copies of `c` (lodash `_.times(n, ...).join('')`;
a negative JavaScript count yields the empty string, like `Nat` truncation). -/
def strRepeat (c : Char) (n : Nat) : String :=
  String.mk (List.replicate n c)

/-! ## Tokens and locations -/

/-- Lexer token. Mirrors the moo token shape used by src/src/index.js:
`type`, `value` (the single capture group when the rule has one, otherwise the
raw text), `text`, character `offset`, `size` (the token's width, spec §3),
1-based `line` and `col`, and the count of embedded `lineBreaks`. -/
structure Token where
  type : String
  value : String
  text : String
  offset : Nat
  size : Nat
  line : Nat
  col : Nat
  lineBreaks : Nat
deriving DecidableEq

/-- Location in the code, from lib/ast/index.js: built from a token, or from
the default `{offset: 0, size: 0, lineBreaks: 0, line: 1, col: 1}` when no
token exists. -/
structure Location where
  offset : Nat
  size : Nat
  lineBreaks : Nat
  line : Nat
  column : Nat
deriving DecidableEq

/-- Location constructor `new Location(token)` including the `token || default`
fallback. -/
def Location.ofToken : Option Token → Location
  | some t => ⟨t.offset, t.size, t.lineBreaks, t.line, t.col⟩
  | none => ⟨0, 0, 0, 1, 1⟩

/-- Rendering of `Location.prototype.toString`. -/
def Location.render (l : Location) : String :=
  "[Location: Offset=" ++ toString l.offset ++ ", Size=" ++ toString l.size ++
    ", lineBreaks=" ++ toString l.lineBreaks ++ ", Line=" ++ toString l.line ++
    ", Column=" ++ toString l.column ++ "]"

/-! ## Lexer rules

The token table is source (nearley/tokens); the matching engine (the external
moo library) is modelled from the spec, §4.1: at each position the rules of
the ordered table are tried and the longest match wins, ties going to the
earlier rule; each individual pattern follows its JavaScript regex semantics.
A matcher returns the matched length and, for rules with a capture group, the
captured characters. -/

/-- Matcher for `include`/`use`: keyword, `\s*`, `<`, greedy `(.+)` (no line
terminators), `>`; captures the inner text. -/
def matchAngle (kw : List Char) (l : List Char) : Option (Nat × Option (List Char)) :=
  if kw.isPrefixOf l then
    let r1 := l.drop kw.length
    let ws := countWhile jsSpaceChar r1
    match r1.drop ws with
    | '<' :: r3 =>
      let seg := r3.takeWhile jsDotChar
      match lastIdxOf '>' seg with
      | some k => if 1 ≤ k then some (kw.length + ws + 1 + k + 1, some (seg.take k)) else none
      | none => none
    | _ => none
  else none

/-- Matcher for `moduleDefinition`/`functionDefinition`: keyword, `\s*`,
captured identifier, `\s*`, `(`. -/
def matchDefKw (kw : List Char) (l : List Char) : Option (Nat × Option (List Char)) :=
  if kw.isPrefixOf l then
    let r1 := l.drop kw.length
    let ws := countWhile jsSpaceChar r1
    match r1.drop ws with
    | c :: r3 =>
      if identStartChar c then
        let tail := r3.takeWhile identTailChar
        let ws2 := countWhile jsSpaceChar (r3.drop tail.length)
        match (r3.drop tail.length).drop ws2 with
        | '(' :: _ => some (kw.length + ws + 1 + tail.length + ws2 + 1, some (c :: tail))
        | _ => none
      else none
    | [] => none
  else none

/-- Matcher for `actionCall`: captured optional modifier plus `[A-Za-z]`
identifier, then `\s*`, `(`. -/
def matchActionCall (l : List Char) : Option (Nat × Option (List Char)) :=
  let modLen := match l with
    | c :: _ => if modifierChar c then 1 else 0
    | [] => 0
  match l.drop modLen with
  | c :: r2 =>
    if c.isAlpha then
      let tail := r2.takeWhile identTailChar
      let ws := countWhile jsSpaceChar (r2.drop tail.length)
      match (r2.drop tail.length).drop ws with
      | '(' :: _ => some (modLen + 1 + tail.length + ws + 1, some (l.take modLen ++ c :: tail))
      | _ => none
    else none
  | [] => none

/-- Matcher for single-line comments `//(.*)\n`; captures the inner text and
requires the terminating newline. -/
def matchComment : List Char → Option (Nat × Option (List Char))
  | '/' :: '/' :: r =>
    let inner := r.takeWhile jsDotChar
    match r.drop inner.length with
    | '\n' :: _ => some (2 + inner.length + 1, some inner)
    | _ => none
  | _ => none

/-- Matcher for multi-line comments: opening delimiter, non-greedy `([^]*?)`
up to the first closing delimiter (the regex `mlComment` rule, which may span
lines); captures the inner text. -/
def matchMlComment : List Char → Option (Nat × Option (List Char))
  | '/' :: '*' :: r =>
    match findSub ['*', '/'] r with
    | some k => some (2 + k + 2, some (r.take k))
    | none => none
  | _ => none

/-- Matcher for a literal token. -/
def matchLitTok (lit : List Char) (l : List Char) : Option (Nat × Option (List Char)) :=
  if lit.isPrefixOf l then some (lit.length, none) else none

/-- Matcher for the `bool` keyword rule `['true', 'false']`. -/
def matchBool (l : List Char) : Option (Nat × Option (List Char)) :=
  if ['t', 'r', 'u', 'e'].isPrefixOf l then some (4, none)
  else if ['f', 'a', 'l', 's', 'e'].isPrefixOf l then some (5, none)
  else none

/-- Matcher for `operator1`, the regex `\*|\/|\%`. -/
def matchOp1 : List Char → Option (Nat × Option (List Char))
  | c :: _ => if c = '*' || c = '/' || c = '%' then some (1, none) else none
  | [] => none

/-- Matcher for `operator2`, the regex `\+|\-`. -/
def matchOp2 : List Char → Option (Nat × Option (List Char))
  | c :: _ => if c = '+' || c = '-' then some (1, none) else none
  | [] => none

/-- Matcher for `operator3`, the regex `<|<=|==|!=|>=|>|&&|\|\|`, with
JavaScript ordered-alternation semantics (so a lone `<` wins over `<=`). -/
def matchOp3 : List Char → Option (Nat × Option (List Char))
  | '<' :: _ => some (1, none)
  | '=' :: '=' :: _ => some (2, none)
  | '!' :: '=' :: _ => some (2, none)
  | '>' :: '=' :: _ => some (2, none)
  | '>' :: _ => some (1, none)
  | '&' :: '&' :: _ => some (2, none)
  | '|' :: '|' :: _ => some (2, none)
  | _ => none

/-- Matcher for identifiers `[A-Za-z_$][A-Za-z0-9_]*`. -/
def matchIdent : List Char → Option (Nat × Option (List Char))
  | c :: r =>
    if identStartChar c then some (1 + (r.takeWhile identTailChar).length, none) else none
  | [] => none

/-- Matcher for strings `"([^"]*)"`; captures the inner text. -/
def matchString : List Char → Option (Nat × Option (List Char))
  | '"' :: r =>
    let inner := r.takeWhile (fun c => !(c = '"'))
    match r.drop inner.length with
    | '"' :: _ => some (inner.length + 2, some inner)
    | _ => none
  | _ => none

/-- Length of an exponent suffix `[eE][-+]?[0-9]+`, or `0` when absent. -/
def matchExpPart (l : List Char) : Nat :=
  match l with
  | c :: r =>
    if c = 'e' || c = 'E' then
      let signLen := match r with
        | s :: _ => if s = '-' || s = '+' then 1 else 0
        | [] => 0
      let ds := (r.drop signLen).takeWhile Char.isDigit
      if ds.isEmpty then 0 else 1 + signLen + ds.length
    else 0
  | [] => 0

/-- Matcher for numbers `([0-9]+(?:\.?[0-9]*(?:[eE][-+]?[0-9]+)?)?)`. -/
def matchFloat (l : List Char) : Option (Nat × Option (List Char)) :=
  let ds := l.takeWhile Char.isDigit
  if ds.isEmpty then none
  else
    let r1 := l.drop ds.length
    let dotLen := match r1 with
      | '.' :: _ => 1
      | _ => 0
    let frac := (r1.drop dotLen).takeWhile Char.isDigit
    let expLen := matchExpPart ((r1.drop dotLen).drop frac.length)
    some (ds.length + dotLen + frac.length + expLen, none)

/-- Matcher for `eos`, the regex `[ \t]*;`. -/
def matchEos (l : List Char) : Option (Nat × Option (List Char)) :=
  let ws := countWhile (fun c => c = ' ' || c = '\t') l
  match l.drop ws with
  | ';' :: _ => some (ws + 1, none)
  | _ => none

/-- Matcher for `whitespace`, the regex `[ \t]+`. -/
def matchWs (l : List Char) : Option (Nat × Option (List Char)) :=
  let n := countWhile (fun c => c = ' ' || c = '\t') l
  if n = 0 then none else some (n, none)

/-- The ordered rule table of nearley/tokens. -/
def lexRules : List (String × (List Char → Option (Nat × Option (List Char)))) :=
  [("include", matchAngle ['i', 'n', 'c', 'l', 'u', 'd', 'e']),
   ("use", matchAngle ['u', 's', 'e']),
   ("moduleDefinition", matchDefKw ['m', 'o', 'd', 'u', 'l', 'e']),
   ("functionDefinition", matchDefKw ['f', 'u', 'n', 'c', 't', 'i', 'o', 'n']),
   ("actionCall", matchActionCall),
   ("comment", matchComment),
   ("mlComment", matchMlComment),
   ("comma", matchLitTok [',']),
   ("seperator", matchLitTok [':']),
   ("lvect", matchLitTok ['[']),
   ("rvect", matchLitTok [']']),
   ("lparent", matchLitTok ['(']),
   ("rparent", matchLitTok [')']),
   ("lblock", matchLitTok ['\x7b']),
   ("rblock", matchLitTok ['\x7d']),
   ("bool", matchBool),
   ("operator1", matchOp1),
   ("operator2", matchOp2),
   ("operator3", matchOp3),
   ("assign", matchLitTok ['=']),
   ("identifier", matchIdent),
   ("string", matchString),
   ("float", matchFloat),
   ("eol", matchLitTok ['\n']),
   ("eos", matchEos),
   ("whitespace", matchWs)]

/-- Longest match over the rule table; ties are broken by table order
(spec §4.1: "longest-match-first among the ordered rule table"). -/
def bestMatch (l : List Char) : Option (String × Nat × Option (List Char)) :=
  lexRules.foldl
    (fun acc rule =>
      match rule.2 l with
      | some (len, v) =>
        match acc with
        | some (_, blen, _) => if blen < len then some (rule.1, len, v) else acc
        | none => some (rule.1, len, v)
      | none => acc)
    none

/-- Lexer driver: scans `l` producing tokens; on input matching no rule it
emits a single final token of kind `LexerError` holding the offending rest of
the input, rather than throwing (spec §4.1). Line and column bookkeeping
follows moo: a token with embedded newlines advances `line` by the newline
count and resets `col` after the last newline. -/
def lexAux : Nat → List Char → Nat → Nat → Nat → List Token
  | 0, _, _, _, _ => []
  | _, [], _, _, _ => []
  | fuel + 1, l, offset, line, col =>
    match bestMatch l with
    | some (ty, len, v) =>
      let textCs := l.take len
      let breaks := (textCs.filter (fun c => c = '\n')).length
      let tok : Token :=
        { type := ty, value := String.mk ((v.getD textCs)), text := String.mk textCs,
          offset := offset, size := len, line := line, col := col, lineBreaks := breaks }
      let col' := match lastIdxOf '\n' textCs with
        | some i => len - i
        | none => col + len
      tok :: lexAux fuel (l.drop len) (offset + len) (line + breaks) col'
    | none =>
      [{ type := "LexerError", value := String.mk l, text := String.mk l,
         offset := offset, size := l.length, line := line, col := col,
         lineBreaks := (l.filter (fun c => c = '\n')).length }]

/-- Tokenize a whole source text. -/
def lex (code : String) : List Token :=
  lexAux (code.data.length + 1) code.data 0 1 1

/-! ## AST node model

The grammar file (src/nearley/grammar) is not part of the available sources;
the parser below and the node variants it builds are modelled from the spec,
§3 and §4.2. Following the spec's own design note (§9), the Value hierarchy
and ExpressionNode are carried as one explicit tagged variant type instead of
JavaScript class-name dispatch. -/

/-- Values and expressions: NumberValue, StringValue, BooleanValue,
VectorValue, RangeValue, ReferenceValue and ExpressionNode (left, optional
right, optional operator, negative flag). NumberValue, ReferenceValue and
ExpressionNode carry the `negative` flag set by the sign setter. -/
inductive SValue where
  | number (value : String) (negative : Bool)
  | str (value : String)
  | boolean (value : Bool)
  | vector (elements : List SValue)
  | range (rstart : SValue) (rstop : SValue) (step : Option SValue)
  | reference (name : String) (negative : Bool)
  | expr (left : SValue) (right : Option SValue) (op : Option String) (negative : Bool)

/-- Statement-level nodes (spec §3): CommentNode, IncludeNode, UseNode,
VariableNode, ModuleNode, FunctionNode, ForLoopNode, ActionNode. -/
inductive Stmt where
  | commentStmt (text : String) (multiline : Bool)
  | includeStmt (file : String)
  | useStmt (file : String)
  | variableStmt (name : String) (value : SValue)
  | moduleStmt (name : String) (params : List String) (children : List Stmt)
  | functionStmt (name : String) (params : List String) (expression : SValue)
  | forLoopStmt (param : String) (source : SValue) (children : List Stmt)
  | actionStmt (name : String) (modifier : String) (params : List SValue)
      (label : Option String) (children : List Stmt)

/-- Root node of an AST: children are the top-level statements. -/
structure RootAst where
  children : List Stmt

/-! ## Node constructors with interesting logic (ast/nodes) -/

/-- Name part of an ActionNode:
`name.replace(/([!#\*\%]?)(.*)/, '$2')`. The regex matches at position 0 with
group 1 an optional modifier character and group 2 the greedy dot-run; the
match is replaced by group 2 and the unmatched suffix is kept. -/
def actionNameOf (s : String) : String :=
  let cs := s.data
  let g1 : List Char := match cs with
    | c :: _ => if modifierChar c then [c] else []
    | [] => []
  let rest := cs.drop g1.length
  let g2 := rest.takeWhile jsDotChar
  String.mk (g2 ++ rest.drop g2.length)

/-- Modifier part of an ActionNode:
`name.replace(/([!#\*\%]?)(.*)/, '$1')`, the same match replaced by group 1
with the unmatched suffix kept. -/
def actionModifierOf (s : String) : String :=
  let cs := s.data
  let g1 : List Char := match cs with
    | c :: _ => if modifierChar c then [c] else []
    | [] => []
  let rest := cs.drop g1.length
  let g2 := rest.takeWhile jsDotChar
  String.mk (g1 ++ rest.drop g2.length)

/-- CommentNode fields. -/
structure CommentNode where
  text : String
  multiline : Bool
  location : Option Location

/-- CommentNode constructor (ast/nodes): stores
`multiline ? text : text.trim()` and the multiline flag; the base Node
constructor stores a Location when a token is given and null otherwise. -/
def CommentNode.make (token : Option Token) (text : String) (multiline : Bool) : CommentNode :=
  { text := if multiline then text else jsTrim text,
    multiline := multiline,
    location := token.map (fun t => Location.ofToken (some t)) }

/-- Sign setter `setNegative(true)` (spec §4.2: a negative atom constructs the
operand node and then invokes the sign setter; NumberValue, ReferenceValue and
ExpressionNode carry the flag, any other operand is wrapped in an
ExpressionNode holding the flag). -/
def setNegative : SValue → SValue
  | .number v _ => .number v true
  | .reference n _ => .reference n true
  | .expr l r o _ => .expr l r o true
  | v => .expr v none none true

/-! ## Parser

Modelled from the spec: incremental earley-style parsing over the statement
productions and the layered expression grammar of §4.2. A failure
`atToken i` means the `i`-th fed token admitted no continuation of any
derivation (nearley raises while feeding that token); `endOfInput` means
every feed succeeded but no completed derivation exists, in which case
src/src/index.js reads `parser.results[0]` as `undefined` and
`new RootNode(undefined)` produces a root with no children. -/

inductive PFail where
  | atToken (i : Nat)
  | endOfInput

/-- Consume one token of the given type. -/
def expectType (toks : List Token) (pos : Nat) (ty : String) : Except PFail Nat :=
  match toks[pos]? with
  | none => .error .endOfInput
  | some t => if t.type = ty then .ok (pos + 1) else .error (.atToken pos)

mutual

/-- Expression: `expr := sum` (spec §4.2). -/
def parseExprF : Nat → List Token → Nat → Except PFail (SValue × Nat)
  | 0, _, _ => .error .endOfInput
  | fuel + 1, toks, pos => do
    let (left, p1) ← parseProductF fuel toks pos
    sumLoopF fuel toks left p1

/-- Left-associative loop for `sum := sum ('+'|'-') product | product`. -/
def sumLoopF : Nat → List Token → SValue → Nat → Except PFail (SValue × Nat)
  | 0, _, _, _ => .error .endOfInput
  | fuel + 1, toks, left, pos =>
    match toks[pos]? with
    | some t =>
      if t.type = "operator2" then do
        let (right, p2) ← parseProductF fuel toks (pos + 1)
        sumLoopF fuel toks (SValue.expr left (some right) (some t.value) false) p2
      else .ok (left, pos)
    | none => .ok (left, pos)

/-- Product layer entry. -/
def parseProductF : Nat → List Token → Nat → Except PFail (SValue × Nat)
  | 0, _, _ => .error .endOfInput
  | fuel + 1, toks, pos => do
    let (left, p1) ← parseUnaryF fuel toks pos
    prodLoopF fuel toks left p1

/-- Left-associative loop for `product := product ('*'|'/'|'%') unary | unary`. -/
def prodLoopF : Nat → List Token → SValue → Nat → Except PFail (SValue × Nat)
  | 0, _, _, _ => .error .endOfInput
  | fuel + 1, toks, left, pos =>
    match toks[pos]? with
    | some t =>
      if t.type = "operator1" then do
        let (right, p2) ← parseUnaryF fuel toks (pos + 1)
        prodLoopF fuel toks (SValue.expr left (some right) (some t.value) false) p2
      else .ok (left, pos)
    | none => .ok (left, pos)

/-- Unary layer: `unary := '-' atom | atom`. -/
def parseUnaryF : Nat → List Token → Nat → Except PFail (SValue × Nat)
  | 0, _, _ => .error .endOfInput
  | fuel + 1, toks, pos =>
    match toks[pos]? with
    | some t =>
      if t.type = "operator2" ∧ t.value = "-" then do
        let (a, p1) ← parseAtomF fuel toks (pos + 1)
        .ok (setNegative a, p1)
      else parseAtomF fuel toks pos
    | none => .error .endOfInput

/-- Atom layer: number, string, bool, identifier, vector, range or
parenthesized expression. -/
def parseAtomF : Nat → List Token → Nat → Except PFail (SValue × Nat)
  | 0, _, _ => .error .endOfInput
  | fuel + 1, toks, pos =>
    match toks[pos]? with
    | none => .error .endOfInput
    | some t =>
      if t.type = "float" then .ok (SValue.number t.value false, pos + 1)
      else if t.type = "string" then .ok (SValue.str t.value, pos + 1)
      else if t.type = "bool" then .ok (SValue.boolean (t.value == "true"), pos + 1)
      else if t.type = "identifier" then .ok (SValue.reference t.value false, pos + 1)
      else if t.type = "lparent" then do
        let (e, p1) ← parseExprF fuel toks (pos + 1)
        let p2 ← expectType toks p1 "rparent"
        .ok (e, p2)
      else if t.type = "lvect" then
        match toks[pos + 1]? with
        | none => .error .endOfInput
        | some t2 =>
          if t2.type = "rvect" then .ok (SValue.vector [], pos + 2)
          else do
            let (e1, p1) ← parseExprF fuel toks (pos + 1)
            match toks[p1]? with
            | none => .error .endOfInput
            | some t3 =>
              if t3.type = "seperator" then do
                let (e2, p2) ← parseExprF fuel toks (p1 + 1)
                match toks[p2]? with
                | none => .error .endOfInput
                | some t4 =>
                  if t4.type = "seperator" then do
                    let (e3, p3) ← parseExprF fuel toks (p2 + 1)
                    let p4 ← expectType toks p3 "rvect"
                    .ok (SValue.range e1 e2 (some e3), p4)
                  else do
                    let p4 ← expectType toks p2 "rvect"
                    .ok (SValue.range e1 e2 none, p4)
              else if t3.type = "comma" then do
                let (es, p2) ← vectTailF fuel toks (p1 + 1)
                .ok (SValue.vector (e1 :: es), p2)
              else if t3.type = "rvect" then .ok (SValue.vector [e1], p1 + 1)
              else .error (.atToken p1)
      else .error (.atToken pos)

/-- Remaining vector elements after the first comma. -/
def vectTailF : Nat → List Token → Nat → Except PFail (List SValue × Nat)
  | 0, _, _ => .error .endOfInput
  | fuel + 1, toks, pos => do
    let (e, p1) ← parseExprF fuel toks pos
    match toks[p1]? with
    | none => .error .endOfInput
    | some t =>
      if t.type = "comma" then do
        let (es, p2) ← vectTailF fuel toks (p1 + 1)
        .ok (e :: es, p2)
      else if t.type = "rvect" then .ok ([e], p1 + 1)
      else .error (.atToken p1)

end

mutual

/-- One statement (spec §4.2 statement productions). -/
def parseStmtF : Nat → List Token → Nat → Except PFail (Stmt × Nat)
  | 0, _, _ => .error .endOfInput
  | fuel + 1, toks, pos =>
    match toks[pos]? with
    | none => .error .endOfInput
    | some t =>
      if t.type = "comment" then
        let cn := CommentNode.make (some t) t.value false
        .ok (.commentStmt cn.text cn.multiline, pos + 1)
      else if t.type = "mlComment" then
        let cn := CommentNode.make (some t) t.value true
        .ok (.commentStmt cn.text cn.multiline, pos + 1)
      else if t.type = "include" then
        match toks[pos + 1]? with
        | some t2 =>
          if t2.type = "eos" then .ok (.includeStmt t.value, pos + 2)
          else .ok (.includeStmt t.value, pos + 1)
        | none => .ok (.includeStmt t.value, pos + 1)
      else if t.type = "use" then
        match toks[pos + 1]? with
        | some t2 =>
          if t2.type = "eos" then .ok (.useStmt t.value, pos + 2)
          else .ok (.useStmt t.value, pos + 1)
        | none => .ok (.useStmt t.value, pos + 1)
      else if t.type = "moduleDefinition" then do
        let (ps, p1) ← parseParamsF fuel toks (pos + 1)
        let (body, p2) ← parseBlockF fuel toks p1
        .ok (.moduleStmt t.value ps body, p2)
      else if t.type = "functionDefinition" then do
        let (ps, p1) ← parseParamsF fuel toks (pos + 1)
        let p2 ← expectType toks p1 "assign"
        let (e, p3) ← parseExprF fuel toks p2
        let p4 ← expectType toks p3 "eos"
        .ok (.functionStmt t.value ps e, p4)
      else if t.type = "actionCall" then
        if t.value = "for" then
          match toks[pos + 1]? with
          | none => .error .endOfInput
          | some t2 =>
            if t2.type = "identifier" then do
              let p2 ← expectType toks (pos + 2) "assign"
              let (e, p3) ← parseExprF fuel toks p2
              let p4 ← expectType toks p3 "rparent"
              let (body, p5) ← parseBlockF fuel toks p4
              .ok (.forLoopStmt t2.value e body, p5)
            else .error (.atToken (pos + 1))
        else parseActionTailF fuel toks (pos + 1) t.value none
      else if t.type = "identifier" then
        match toks[pos + 1]? with
        | none => .error .endOfInput
        | some t2 =>
          if t2.type = "assign" then do
            let (e, p2) ← parseExprF fuel toks (pos + 2)
            let p3 ← expectType toks p2 "eos"
            .ok (.variableStmt t.value e, p3)
          else if t2.type = "seperator" then
            match toks[pos + 2]? with
            | none => .error .endOfInput
            | some t3 =>
              if t3.type = "actionCall" ∧ ¬(t3.value = "for") then
                parseActionTailF fuel toks (pos + 3) t3.value (some t.value)
              else .error (.atToken (pos + 2))
          else .error (.atToken (pos + 1))
      else .error (.atToken pos)

/-- Arguments, closing parenthesis and trailing `;` or block of an action
call; builds the ActionNode through the constructor's name and modifier
extraction and the label setter. -/
def parseActionTailF : Nat → List Token → Nat → String → Option String → Except PFail (Stmt × Nat)
  | 0, _, _, _, _ => .error .endOfInput
  | fuel + 1, toks, pos, callText, label => do
    let (args, p1) ← parseArgsF fuel toks pos
    match toks[p1]? with
    | none => .error .endOfInput
    | some t2 =>
      if t2.type = "eos" then
        .ok (.actionStmt (actionNameOf callText) (actionModifierOf callText) args label [], p1 + 1)
      else if t2.type = "lblock" then do
        let (body, p2) ← parseBlockF fuel toks p1
        .ok (.actionStmt (actionNameOf callText) (actionModifierOf callText) args label body, p2)
      else .error (.atToken p1)

/-- Action-call argument list up to and including the closing parenthesis. -/
def parseArgsF : Nat → List Token → Nat → Except PFail (List SValue × Nat)
  | 0, _, _ => .error .endOfInput
  | fuel + 1, toks, pos =>
    match toks[pos]? with
    | none => .error .endOfInput
    | some t =>
      if t.type = "rparent" then .ok ([], pos + 1)
      else do
        let (e, p1) ← parseExprF fuel toks pos
        match toks[p1]? with
        | none => .error .endOfInput
        | some t2 =>
          if t2.type = "comma" then do
            let (es, p2) ← parseArgsF fuel toks (p1 + 1)
            .ok (e :: es, p2)
          else if t2.type = "rparent" then .ok ([e], p1 + 1)
          else .error (.atToken p1)

/-- Module or function parameter list up to and including the closing
parenthesis. -/
def parseParamsF : Nat → List Token → Nat → Except PFail (List String × Nat)
  | 0, _, _ => .error .endOfInput
  | fuel + 1, toks, pos =>
    match toks[pos]? with
    | none => .error .endOfInput
    | some t =>
      if t.type = "rparent" then .ok ([], pos + 1)
      else if t.type = "identifier" then
        match toks[pos + 1]? with
        | none => .error .endOfInput
        | some t2 =>
          if t2.type = "comma" then do
            let (ps, p2) ← parseParamsF fuel toks (pos + 2)
            .ok (t.value :: ps, p2)
          else if t2.type = "rparent" then .ok ([t.value], pos + 2)
          else .error (.atToken (pos + 1))
      else .error (.atToken pos)

/-- Braced statement block. -/
def parseBlockF : Nat → List Token → Nat → Except PFail (List Stmt × Nat)
  | 0, _, _ => .error .endOfInput
  | fuel + 1, toks, pos => do
    let p1 ← expectType toks pos "lblock"
    parseStmtsUntilF fuel toks p1

/-- Statements up to and including the closing brace. -/
def parseStmtsUntilF : Nat → List Token → Nat → Except PFail (List Stmt × Nat)
  | 0, _, _ => .error .endOfInput
  | fuel + 1, toks, pos =>
    match toks[pos]? with
    | none => .error .endOfInput
    | some t =>
      if t.type = "rblock" then .ok ([], pos + 1)
      else do
        let (s, p1) ← parseStmtF fuel toks pos
        let (ss, p2) ← parseStmtsUntilF fuel toks p1
        .ok (s :: ss, p2)

end

/-- Top-level statement sequence over the whole token list. -/
def parseProgF : Nat → List Token → Nat → Except PFail (List Stmt × Nat)
  | 0, _, _ => .error .endOfInput
  | fuel + 1, toks, pos =>
    match toks[pos]? with
    | none => .ok ([], pos)
    | some _ => do
      let (s, p1) ← parseStmtF fuel toks pos
      let (ss, p2) ← parseProgF fuel toks p1
      .ok (s :: ss, p2)

/-- Run the parser over a fed token list. `.error i` is the index of the
first token whose feed admitted no continuation; an incomplete-but-viable
stream yields an empty statement list (undefined first result, see above). -/
def runParse (toks : List Token) : Except Nat (List Stmt) :=
  match parseProgF (10 * (toks.length + 1) + 10) toks 0 with
  | .ok (ss, _) => .ok ss
  | .error (.atToken i) => .error i
  | .error .endOfInput => .ok []

/-! ## Error reporting and the SCADParser class (src/src/index.js) -/

/-- JavaScript `String.prototype.split('\n')`. -/
def jsSplitLinesAux : List Char → List Char → List String
  | [], acc => [String.mk acc.reverse]
  | c :: rest, acc =>
    if c = '\n' then String.mk acc.reverse :: jsSplitLinesAux rest []
    else jsSplitLinesAux rest (c :: acc)

/-- Split a string at newline characters, JavaScript-style. -/
def jsSplitLines (s : String) : List String :=
  jsSplitLinesAux s.data []

/-- JavaScript `Array.prototype.slice(s, e)` with negative-index
normalization: a negative bound counts from the end of the array, then both
bounds are clamped to `[0, length]`. -/
def jsSlice {α : Type} (l : List α) (s e : Int) : List α :=
  let len : Int := l.length
  let s1 := if s < 0 then max (len + s) 0 else min s len
  let e1 := if e < 0 then max (len + e) 0 else min e len
  if s1 < e1 then (l.drop s1.toNat).take (e1 - s1).toNat else []

/-- Zero-padding helper `pad(n, width)` of getCodeExcerpt. -/
def padZero (n : Nat) (width : Nat) : String :=
  let s := toString n
  if width ≤ s.length then s else strRepeat '0' (width - s.length) ++ s

/-- Marker line `drawMarker(indent)` of getCodeExcerpt: `indent` spaces, then
`column + 1` spaces, `^`, `size - 2` dashes (empty when the width is below
two, as lodash `_.times` of a negative count), and a closing `^`. -/
def drawMarker (indent : Nat) (location : Location) : String :=
  strRepeat ' ' indent ++ strRepeat ' ' (location.column + 1) ++ "^" ++
    strRepeat '-' (location.size - 2) ++ "^"

/-- Per-line rendering of getCodeExcerpt: each sliced line is prefixed with
its zero-padded line number, and the line whose index inside the sliced array
equals `location.line - 1` additionally gets the marker line beneath it. -/
def renderExcerptLines : List String → Nat → Nat → Nat → Location → List String
  | [], _, _, _, _ => []
  | ln :: rest, index, start, width, location =>
    let numStr := padZero (index + start + 1) width
    let entry :=
      if (index : Int) ≠ (location.line : Int) - 1 then numStr ++ ": " ++ ln
      else numStr ++ ": " ++ ln ++ "\n" ++ drawMarker width location
    entry :: renderExcerptLines rest (index + 1) start width location

/-- SCADParser.getCodeExcerpt: splits the cached code of the file at
newlines, computes `start = line - (lines + 2)` clamped at zero and
`end = line + (lines - 1)` clamped to the last index (the clamped `end` is
used only for the number width), slices `[start, line + (lines - 1))`, and
joins the rendered lines. -/
def getCodeExcerpt (code : String) (location : Location) (lines : Nat := 3) : String :=
  let codeLines := jsSplitLines code
  let startI : Int := (location.line : Int) - ((lines : Int) + 2)
  let start : Nat := if startI < 0 then 0 else startI.toNat
  let endI : Int := (location.line : Int) + ((lines : Int) - 1)
  let endv : Int := if (codeLines.length : Int) ≤ endI then (codeLines.length : Int) - 1 else endI
  let sliced := jsSlice codeLines (start : Int) endI
  let width := (toString endv).length
  String.intercalate "\n" (renderExcerptLines sliced 0 start width location)

/-- Classified errors raised by the system (spec §7): InvalidInvocation,
LexerError (message and location) and ParserError (message, location, the
`lastTokens` slice and the excerpt), mirroring the fields attached to the
thrown `Error` objects in src/src/index.js. -/
inductive ScadError where
  | invalidInvocation (message : String)
  | lexerError (message : String) (location : Location)
  | parserError (message : String) (location : Location) (lastTokens : List Token)
      (excerpt : String)
deriving DecidableEq

/-- Checks that an error took the lexer-error branch. -/
def ScadError.isLexerErrorB : ScadError → Bool
  | .lexerError _ _ => true
  | _ => false

/-- Checks that an error took the parser-error branch. -/
def ScadError.isParserErrorB : ScadError → Bool
  | .parserError _ _ _ _ => true
  | _ => false

/-- The `lastTokens` attached to a parser error (empty otherwise). -/
def ScadError.lastTokensOf : ScadError → List Token
  | .parserError _ _ ts _ => ts
  | _ => []

/-- Mutable per-instance caches of SCADParser, keyed by file identifier:
`cache` (parse results), `codeCache`, `tokenCache`. -/
structure ParserState where
  resultCache : List (String × RootAst)
  codeCache : List (String × String)
  tokenCache : List (String × List Token)

/-- Fresh SCADParser instance state. -/
def initState : ParserState := ⟨[], [], []⟩

/-- Association update, modelling `this.xCache[file] = v`. -/
def assocSet {α : Type} (m : List (String × α)) (k : String) (v : α) : List (String × α) :=
  match m with
  | [] => [(k, v)]
  | (k1, v1) :: rest => if k1 = k then (k, v) :: rest else (k1, v1) :: assocSet rest k v

/-- Association lookup, modelling `this.xCache[file]`. -/
def assocGet? {α : Type} (m : List (String × α)) (k : String) : Option α :=
  match m with
  | [] => none
  | (k1, v1) :: rest => if k1 = k then some v1 else assocGet? rest k

/-- The `ignoredTokens` of the SCADParser constructor. -/
def ignoredTokens : List String := ["whitespace", "eol"]

/-- The token loop of SCADParser.parse: each lexed token whose type is in
`ignoredTokens` is skipped with `continue`; every other token is pushed to the
token cache and fed to the parser. The returned list is the sequence of fed
(and cached) tokens, in order. -/
def feedTokens : List Token → List Token
  | [] => []
  | t :: ts => if ignoredTokens.contains t.type then feedTokens ts else t :: feedTokens ts

/-- Lexer-error construction of the catch block of SCADParser.parse. -/
def mkLexerError (codeStr : String) (last : Token) : ScadError :=
  let location := Location.ofToken (some last)
  let excerpt := getCodeExcerpt codeStr location 3
  .lexerError
    ("Lexer error:\n" ++ last.value ++ " " ++ location.render ++ "\nExcerpt:\n\n" ++ excerpt)
    location

/-- Parser-error construction of the catch block of SCADParser.parse; note
`lastTokens = cache.slice(cache.length - 3, cache.length)` with JavaScript
slice semantics, and the `last ? ... : 'undefined'` fallbacks. -/
def mkParserError (codeStr : String) (cache : List Token) : ScadError :=
  let last? := cache.getLast?
  let location := Location.ofToken last?
  let excerpt := getCodeExcerpt codeStr location 3
  let lastTokens := jsSlice cache ((cache.length : Int) - 3) (cache.length : Int)
  let lastVal := match last? with
    | some l => l.value
    | none => "undefined"
  let lastTy := match last? with
    | some l => l.type
    | none => "undefined"
  .parserError
    ("Parser error: Unexpected token '" ++ lastVal ++ "' (Type: " ++ lastTy ++ ", " ++
      location.render ++ ")\nLast tokens: [\"" ++
      String.intercalate "\", \"" (lastTokens.map Token.value) ++ "\"]\nExcerpt:\n\n" ++ excerpt)
    location lastTokens excerpt

/-- Failure classification of the catch block: the error is a LexerError
exactly when a last captured token exists and its type is `LexerError`,
otherwise a ParserError. -/
def classifyError (codeStr : String) (cache : List Token) : ScadError :=
  match cache.getLast? with
  | some last =>
    if last.type = "LexerError" then mkLexerError codeStr last
    else mkParserError codeStr cache
  | none => mkParserError codeStr cache

/-- SCADParser.parse: reset the file's token cache, lex, feed the non-ignored
tokens one by one, and either wrap the first completed derivation in a
RootNode or classify the failure from the tokens captured up to and including
the failing one. -/
def parse (st : ParserState) (code : String) (file : String) : ParserState × Except ScadError RootAst :=
  let fedToks := feedTokens (lex code)
  match runParse fedToks with
  | .ok stmts =>
    ({ st with tokenCache := assocSet st.tokenCache file fedToks }, .ok ⟨stmts⟩)
  | .error i =>
    let cache := fedToks.take (i + 1)
    let codeStr := (assocGet? st.codeCache file).getD ""
    ({ st with tokenCache := assocSet st.tokenCache file cache },
     .error (classifyError codeStr cache))

/-- Code-available path of parseAST: store the code in the code cache, parse,
and cache the resulting root on success. -/
def parseASTCore (st : ParserState) (key : String) (c : String) : ParserState × Except ScadError RootAst :=
  let st1 := { st with codeCache := assocSet st.codeCache key c }
  let (st2, r) := parse st1 c key
  match r with
  | .ok root => ({ st2 with resultCache := assocSet st2.resultCache key root }, .ok root)
  | .error e => (st2, .error e)

/-- SCADParser.parseAST(file, code = null). Arguments are modelled as
`Option String` (`none` is a non-string argument, the case `_.isString`
rejects); the synchronous file read of the else-branch is modelled by the
pure oracle `fs`, and a non-string `file` used as a cache key is modelled by
the JavaScript property key `"undefined"`. A falsy (empty) `code` string
takes the file-reading branch, as in the source. -/
def parseAST (fs : String → String) (st : ParserState) (file : Option String)
    (code : Option String) : ParserState × Except ScadError RootAst :=
  if file.isNone ∧ code.isNone then
    (st, .error (.invalidInvocation "You have to pass either code or file parameter!"))
  else
    let key := file.getD "undefined"
    match code with
    | some c => if ¬(c = "") then parseASTCore st key c else parseASTCore st key (fs key)
    | none => parseASTCore st key (fs key)

/-- Covering condition of SCADParser.getToken:
`line == token.line && column >= token.col && column < token.col + token.size`. -/
def coversToken (column line : Nat) (t : Token) : Bool :=
  line == t.line && (column ≥ t.col && column < t.col + t.size)

/-- The lodash `_.each` loop of getToken with its early `return false` exit:
the first covering token wins. -/
def getTokenAux (column line : Nat) : List Token → Option Token
  | [] => none
  | t :: ts => if coversToken column line t then some t else getTokenAux column line ts

/-- SCADParser.getToken(column, line, file) over the file's cached token
list (an absent cache behaves as an empty list, as `_.each(undefined)`). -/
def getToken (st : ParserState) (column line : Nat) (file : String) : Option Token :=
  getTokenAux column line ((assocGet? st.tokenCache file).getD [])

/-! ## Node tree attachment model (ast/nodes, Node base class)

JavaScript nodes are mutable objects linked by object references: a child
holds a `parent` back-reference that the attaching node's constructor or
`setChildren` assigns imperatively. Following the spec's own arena suggestion
(§9), the heap of nodes is modelled as an arena indexed by allocation order:
`node i` is the `i`-th constructed node, carrying its `parent` back-reference
and its `children` handle list. Indices at or above `size` are unallocated
and never referenced by well-formed construction steps. -/

structure ArenaNode where
  parent : Option Nat
  children : List Nat
deriving DecidableEq

structure Arena where
  size : Nat
  node : Nat → ArenaNode

/-- The prospective-children argument of the Node constructor: either an
array whose entries may be null/undefined, or a non-array value (`null` for
the leaf node classes). -/
inductive ChildrenArg where
  | arr (cs : List (Option Nat))
  | notArr

/-- Entries of a prospective-children array surviving
`_.filter(children, x => !!x)`: an object reference is always truthy, so
exactly the non-null entries remain, in order. -/
def keptList (cs : List (Option Nat)) : List Nat :=
  cs.filterMap id

/-- Children kept by the Node constructor; a non-array argument yields no
children. -/
def keptOf : ChildrenArg → List Nat
  | .arr cs => keptList cs
  | .notArr => []

/-- The `_.each(children, child => child.parent = this)` assignment. -/
def setParents (a : Arena) (kept : List Nat) (p : Nat) : Arena :=
  { a with
    node := fun i => if i ∈ kept then { a.node i with parent := some p } else a.node i }

/-- Node constructor: filter falsy entries, assign each kept child's parent
to the new node, and store the kept list as the children (a non-array
argument stores `[]`); the fresh node's own parent is unset. Returns the new
arena and the new node's handle. -/
def newNode (a : Arena) (carg : ChildrenArg) : Arena × Nat :=
  let kept := keptOf carg
  let a1 := setParents a kept a.size
  ({ size := a.size + 1,
     node := fun i =>
       if i = a.size then { parent := none, children := kept } else a1.node i },
   a.size)

/-- Node.setChildren: filter falsy entries, replace the target's children
with the kept list, and assign each kept child's parent to the target. -/
def setChildren (a : Arena) (target : Nat) (cs : List (Option Nat)) : Arena :=
  let kept := keptList cs
  let a1 : Arena :=
    { a with
      node := fun i =>
        if i = target then { a.node i with children := kept } else a.node i }
  setParents a1 kept target

/-- One construction-time event: a node construction or a `setChildren`
call. -/
inductive BuildStep where
  | node (carg : ChildrenArg)
  | setCh (target : Nat) (cs : List (Option Nat))

/-- Apply a construction event to the arena. -/
def applyStep (a : Arena) : BuildStep → Arena
  | .node carg => (newNode a carg).1
  | .setCh t cs => setChildren a t cs

/-- Empty heap. -/
def emptyArena : Arena := { size := 0, node := fun _ => { parent := none, children := [] } }

/-- Replay a construction sequence from the empty heap. -/
def build (steps : List BuildStep) : Arena :=
  steps.foldl applyStep emptyArena

/-- Well-formedness of one event, as produced by a single parse pass over
object references: attached children are existing, distinct nodes that are
not yet attached anywhere (their parent is unset), and `setChildren` targets
an existing node that was built with no children and is not among them. -/
def stepOK (a : Arena) : BuildStep → Prop
  | .node carg =>
    (keptOf carg).Nodup ∧ ∀ c ∈ keptOf carg, c < a.size ∧ (a.node c).parent = none
  | .setCh t cs =>
    t < a.size ∧ (a.node t).children = [] ∧ (keptList cs).Nodup ∧
      t ∉ keptList cs ∧ ∀ c ∈ keptList cs, c < a.size ∧ (a.node c).parent = none

/-- Well-formedness of a whole construction sequence. -/
def stepsOK : Arena → List BuildStep → Prop
  | _, [] => True
  | a, s :: rest => stepOK a s ∧ stepsOK (applyStep a s) rest

instance decStepOK (a : Arena) (s : BuildStep) : Decidable (stepOK a s) :=
  match s with
  | .node _ => inferInstanceAs (Decidable (_ ∧ _))
  | .setCh _ _ => inferInstanceAs (Decidable (_ ∧ _))

instance decStepsOK : (a : Arena) → (l : List BuildStep) → Decidable (stepsOK a l)
  | _, [] => isTrue trivial
  | a, s :: rest =>
    haveI := decStepsOK (applyStep a s) rest
    inferInstanceAs (Decidable (_ ∧ _))

/-- Heap invariant: children handles are allocated; a child's parent field
points back at its holder; a set parent field means the node actually is
among that parent's children; children lists hold no duplicates. -/
def Inv (a : Arena) : Prop :=
  (∀ j, j < a.size → ∀ i ∈ (a.node j).children, i < a.size) ∧
  (∀ j, j < a.size → ∀ i ∈ (a.node j).children, (a.node i).parent = some j) ∧
  (∀ i, i < a.size → ∀ j, (a.node i).parent = some j → j < a.size ∧ i ∈ (a.node j).children) ∧
  (∀ j, j < a.size → ((a.node j).children).Nodup)

/-! ### Heap invariant preservation -/

theorem newNode_size (a : Arena) (carg : ChildrenArg) : (newNode a carg).1.size = a.size + 1 := rfl

theorem newNode_children (a : Arena) (carg : ChildrenArg) (i : Nat) :
    ((newNode a carg).1.node i).children =
      if i = a.size then keptOf carg else (a.node i).children := by
  by_cases hit : i = a.size
  · subst hit
    simp [newNode]
  · by_cases hm : i ∈ keptOf carg <;> simp [newNode, setParents, hit, hm]

theorem newNode_parent (a : Arena) (carg : ChildrenArg) (i : Nat) :
    ((newNode a carg).1.node i).parent =
      if i = a.size then none
      else if i ∈ keptOf carg then some a.size else (a.node i).parent := by
  by_cases hit : i = a.size
  · subst hit
    simp [newNode]
  · by_cases hm : i ∈ keptOf carg <;> simp [newNode, setParents, hit, hm]

theorem setChildren_size (a : Arena) (t : Nat) (cs : List (Option Nat)) :
    (setChildren a t cs).size = a.size := rfl

theorem setChildren_children (a : Arena) (t : Nat) (cs : List (Option Nat)) (i : Nat) :
    ((setChildren a t cs).node i).children =
      if i = t then keptList cs else (a.node i).children := by
  by_cases hit : i = t
  · subst hit
    by_cases hm : i ∈ keptList cs <;> simp [setChildren, setParents, hm]
  · by_cases hm : i ∈ keptList cs <;> simp [setChildren, setParents, hit, hm]

theorem setChildren_parent (a : Arena) (t : Nat) (cs : List (Option Nat)) (i : Nat) :
    ((setChildren a t cs).node i).parent =
      if i ∈ keptList cs then some t else (a.node i).parent := by
  by_cases hit : i = t
  · subst hit
    by_cases hm : i ∈ keptList cs <;> simp [setChildren, setParents, hm]
  · by_cases hm : i ∈ keptList cs <;> simp [setChildren, setParents, hit, hm]

theorem inv_empty : Inv emptyArena := by
  refine ⟨?_, ?_, ?_, ?_⟩ <;> intro j hj <;> simp [emptyArena] at hj

theorem inv_newNode (a : Arena) (carg : ChildrenArg) (hInv : Inv a)
    (hok : stepOK a (BuildStep.node carg)) : Inv (newNode a carg).1 := by
  obtain ⟨hB, hP, hR, hD⟩ := hInv
  obtain ⟨hnd, hmem⟩ := hok
  refine ⟨?_, ?_, ?_, ?_⟩
  · intro j hj i hi
    rw [newNode_size] at hj
    rw [newNode_children] at hi
    by_cases hjN : j = a.size
    · rw [if_pos hjN] at hi
      exact Nat.lt_succ_of_lt (hmem i hi).1
    · rw [if_neg hjN] at hi
      exact Nat.lt_succ_of_lt (hB j (by omega) i hi)
  · intro j hj i hi
    rw [newNode_size] at hj
    rw [newNode_children] at hi
    rw [newNode_parent]
    by_cases hjN : j = a.size
    · rw [if_pos hjN] at hi
      have hiN : i ≠ a.size := by
        have := (hmem i hi).1
        omega
      rw [if_neg hiN, if_pos hi, hjN]
    · rw [if_neg hjN] at hi
      have hj1 : j < a.size := by omega
      have hpar := hP j hj1 i hi
      have hiN : i ≠ a.size := by
        have := hB j hj1 i hi
        omega
      have hik : i ∉ keptOf carg := by
        intro hk
        rw [(hmem i hk).2] at hpar
        exact Option.noConfusion hpar
      rw [if_neg hiN, if_neg hik, hpar]
  · intro i hi j hj
    rw [newNode_size] at hi
    rw [newNode_parent] at hj
    rw [newNode_size, newNode_children]
    by_cases hiN : i = a.size
    · rw [if_pos hiN] at hj
      exact Option.noConfusion hj
    · rw [if_neg hiN] at hj
      by_cases hik : i ∈ keptOf carg
      · rw [if_pos hik] at hj
        have hjN : j = a.size := by
          injection hj with h
          omega
        subst hjN
        rw [if_pos rfl]
        exact ⟨Nat.lt_succ_self _, hik⟩
      · rw [if_neg hik] at hj
        have hres := hR i (by omega) j hj
        have hjN : j ≠ a.size := by omega
        rw [if_neg hjN]
        exact ⟨by omega, hres.2⟩
  · intro j hj
    rw [newNode_size] at hj
    rw [newNode_children]
    by_cases hjN : j = a.size
    · rw [if_pos hjN]
      exact hnd
    · rw [if_neg hjN]
      exact hD j (by omega)

theorem inv_setChildren (a : Arena) (t : Nat) (cs : List (Option Nat)) (hInv : Inv a)
    (hok : stepOK a (BuildStep.setCh t cs)) : Inv (setChildren a t cs) := by
  obtain ⟨hB, hP, hR, hD⟩ := hInv
  obtain ⟨ht, hempty, hnd, htni, hmem⟩ := hok
  refine ⟨?_, ?_, ?_, ?_⟩
  · intro j hj i hi
    rw [setChildren_size] at hj
    rw [setChildren_children] at hi
    by_cases hjt : j = t
    · rw [if_pos hjt] at hi
      exact (hmem i hi).1
    · rw [if_neg hjt] at hi
      exact hB j hj i hi
  · intro j hj i hi
    rw [setChildren_size] at hj
    rw [setChildren_children] at hi
    rw [setChildren_parent]
    by_cases hjt : j = t
    · rw [if_pos hjt] at hi
      rw [if_pos hi, hjt]
    · rw [if_neg hjt] at hi
      have hpar := hP j hj i hi
      have hik : i ∉ keptList cs := by
        intro hk
        rw [(hmem i hk).2] at hpar
        exact Option.noConfusion hpar
      rw [if_neg hik, hpar]
  · intro i hi j hj
    rw [setChildren_size] at hi
    rw [setChildren_parent] at hj
    rw [setChildren_size, setChildren_children]
    by_cases hik : i ∈ keptList cs
    · rw [if_pos hik] at hj
      injection hj with h
      subst h
      rw [if_pos rfl]
      exact ⟨ht, hik⟩
    · rw [if_neg hik] at hj
      have hres := hR i hi j hj
      have hjt : j ≠ t := by
        intro h
        subst h
        have := hres.2
        rw [hempty] at this
        exact List.not_mem_nil i this
      rw [if_neg hjt]
      exact hres
  · intro j hj
    rw [setChildren_size] at hj
    rw [setChildren_children]
    by_cases hjt : j = t
    · rw [if_pos hjt]
      exact hnd
    · rw [if_neg hjt]
      exact hD j hj

theorem inv_buildFrom : ∀ (steps : List BuildStep) (a : Arena),
    Inv a → stepsOK a steps → Inv (steps.foldl applyStep a)
  | [], _, hInv, _ => hInv
  | s :: rest, a, hInv, hok => by
    have h1 : Inv (applyStep a s) := by
      cases s with
      | node carg => exact inv_newNode a carg hInv hok.1
      | setCh t cs => exact inv_setChildren a t cs hInv hok.1
    exact inv_buildFrom rest (applyStep a s) h1 hok.2

theorem inv_build (steps : List BuildStep) (h : stepsOK emptyArena steps) : Inv (build steps) :=
  inv_buildFrom steps emptyArena inv_empty h

/-! ## Shared lemmas -/

theorem assocGet_set {α : Type} (m : List (String × α)) (k : String) (v : α) :
    assocGet? (assocSet m k v) k = some v := by
  induction m with
  | nil => simp [assocSet, assocGet?]
  | cons p rest ih =>
    by_cases h : p.1 = k
    · simp [assocSet, assocGet?, h]
    · simp [assocSet, assocGet?, h, ih]

theorem getTokenAux_eq_find (column line : Nat) (l : List Token) :
    getTokenAux column line l = l.find? (coversToken column line) := by
  induction l with
  | nil => rfl
  | cons t ts ih =>
    by_cases h : coversToken column line t = true
    · simp only [getTokenAux]
      rw [if_pos h, List.find?_cons_of_pos _ h]
    · simp only [getTokenAux, ih]
      rw [if_neg h, List.find?_cons_of_neg _ h]

theorem feedTokens_eq_filter (ts : List Token) :
    feedTokens ts = ts.filter (fun t => !(t.type == "whitespace" || t.type == "eol")) := by
  induction ts with
  | nil => rfl
  | cons t rest ih =>
    by_cases h1 : t.type = "whitespace"
    · simp [feedTokens, ignoredTokens, h1, List.filter_cons, ih]
    · by_cases h2 : t.type = "eol"
      · simp [feedTokens, ignoredTokens, h1, h2, List.filter_cons, ih]
      · simp [feedTokens, ignoredTokens, h1, h2, List.filter_cons, ih]

theorem filterMap_id_length {α : Type} (cs : List (Option α)) :
    (cs.filterMap id).length = (cs.filter Option.isSome).length := by
  induction cs with
  | nil => rfl
  | cons c rest ih =>
    cases c <;> simp [List.filterMap_cons, List.filter, ih]

theorem jsSlice_last3 (l : List Token) (h : 3 ≤ l.length) :
    jsSlice l ((l.length : Int) - 3) (l.length : Int) = l.drop (l.length - 3) := by
  simp only [jsSlice]
  rw [if_neg (show ¬(((l.length : Int) - 3) < 0) by omega),
    if_neg (show ¬((l.length : Int) < 0) by omega)]
  have hm1 : min ((l.length : Int) - 3) (l.length : Int) = (l.length : Int) - 3 :=
    min_eq_left (by omega)
  have hm2 : min (l.length : Int) (l.length : Int) = (l.length : Int) := min_self _
  rw [hm1, hm2, if_pos (show ((l.length : Int) - 3) < (l.length : Int) by omega)]
  have h1 : ((l.length : Int) - 3).toNat = l.length - 3 := by omega
  have h2 : ((l.length : Int) - ((l.length : Int) - 3)).toNat = 3 := by omega
  rw [h1, h2]
  apply List.take_of_length_le
  simp
  omega

/-! ## Claim theorems -/

/-- C4: for every source text, no token of kind `whitespace` or `eol` is ever
fed to the parser: the fed sequence (which is also the captured sequence of
SCADParser.parse, the list `parse` hands to `runParse`) is exactly the
lexer's output with whitespace and end-of-line tokens removed, in order. -/
theorem feedTokens_spec :
    (∀ code : String,
        feedTokens (lex code)
          = (lex code).filter (fun t => !(t.type == "whitespace" || t.type == "eol")))
  ∧ (∀ ts : List Token, ∀ t ∈ feedTokens ts, ¬(t.type = "whitespace") ∧ ¬(t.type = "eol")) := by
  constructor
  · intro code
    exact feedTokens_eq_filter (lex code)
  · intro ts t ht
    rw [feedTokens_eq_filter] at ht
    have := List.of_mem_filter ht
    constructor
    · intro h1
      simp [h1] at this
    · intro h2
      simp [h2] at this

/-- C6: the constructed CommentNode stores the trimmed captured text when the
comment is single-line and the captured inner text unchanged when it is
multi-line; checked both on the constructor and through the whole pipeline on
the two comment forms. -/
theorem commentNode_spec :
    (∀ (tok : Option Token) (text : String), (CommentNode.make tok text true).text = text)
  ∧ (∀ (tok : Option Token) (text : String),
      (CommentNode.make tok text false).text = jsTrim text)
  ∧ (∀ (tok : Option Token) (text : String) (ml : Bool),
      (CommentNode.make tok text ml).multiline = ml)
  ∧ (parse initState "// Single line comment\n" "f").2
      = Except.ok ⟨[Stmt.commentStmt "Single line comment" false]⟩
  ∧ (parse initState "/* Multi\nline\ncomment */" "f").2
      = Except.ok ⟨[Stmt.commentStmt " Multi\nline\ncomment " true]⟩ :=
  ⟨fun _ _ => rfl, fun _ _ => rfl, fun _ _ _ => rfl, by with_unfolding_all rfl,
    by with_unfolding_all rfl⟩

/-- C8: getToken returns the first token of the file's cached token list
satisfying `line == t.line && t.col <= column < t.col + t.size`, and null when
no cached token satisfies it. -/
theorem getToken_spec (st : ParserState) (column line : Nat) (file : String) :
    getToken st column line file
        = ((assocGet? st.tokenCache file).getD []).find? (coversToken column line)
      ∧ (getToken st column line file = none ↔
          ∀ t ∈ (assocGet? st.tokenCache file).getD [], ¬(coversToken column line t = true)) := by
  refine ⟨getTokenAux_eq_find column line _, ?_⟩
  rw [getToken, getTokenAux_eq_find column line _]
  exact List.find?_eq_none

/-- C9: calling parseAST with neither a string code argument nor a string
file argument yields the invalid-invocation error with the exact source
message, with the state unchanged: no parsing happens and no cache is
touched. -/
theorem parseAST_invalid_invocation (fs : String → String) (st : ParserState) :
    parseAST fs st none none
      = (st, Except.error (ScadError.invalidInvocation
          "You have to pass either code or file parameter!")) := rfl

/-- C10: every falsy entry of a prospective-children array is removed before
attachment, both in the Node constructor and in setChildren, so the stored
children are exactly the non-null entries in order and their count is the
count of non-null entries supplied, not the length of the array. -/
theorem children_filter_spec :
    (∀ cs : List (Option Nat), keptOf (ChildrenArg.arr cs) = cs.filterMap id
        ∧ (keptOf (ChildrenArg.arr cs)).length = (cs.filter Option.isSome).length)
  ∧ keptOf ChildrenArg.notArr = []
  ∧ (∀ (a : Arena) (carg : ChildrenArg),
      ((newNode a carg).1.node (newNode a carg).2).children = keptOf carg)
  ∧ (∀ (a : Arena) (t : Nat) (cs : List (Option Nat)),
      ((setChildren a t cs).node t).children = cs.filterMap id) := by
  refine ⟨fun cs => ⟨rfl, filterMap_id_length cs⟩, rfl, ?_, ?_⟩
  · intro a carg
    have h := newNode_children a carg a.size
    rw [if_pos rfl] at h
    exact h
  · intro a t cs
    have h := setChildren_children a t cs t
    rw [h, if_pos rfl]
    rfl

/-! ## C5: action-call name and modifier extraction -/

/-- Identifier-tail characters are matched by the JavaScript dot. -/
theorem identTail_dot (c : Char) (h : identTailChar c = true) : jsDotChar c = true := by
  have h1 : ¬(c = '\n') := by rintro rfl; exact absurd h (by decide)
  have h2 : ¬(c = '\r') := by rintro rfl; exact absurd h (by decide)
  have h3 : ¬(c = ' ') := by rintro rfl; exact absurd h (by decide)
  have h4 : ¬(c = ' ') := by rintro rfl; exact absurd h (by decide)
  simp [jsDotChar, h1, h2, h3, h4]

/-- Alphabetic characters are identifier-tail characters. -/
theorem alpha_identTail (c : Char) (h : c.isAlpha = true) : identTailChar c = true := by
  simp [identTailChar, h]

/-- takeWhile of a predicate holding on the whole list. -/
theorem takeWhile_eq_self {α : Type} {p : α → Bool} :
    ∀ l : List α, (∀ c ∈ l, p c = true) → l.takeWhile p = l
  | [], _ => rfl
  | c :: cs, h => by
    rw [List.takeWhile_cons, if_pos (h c (List.mem_cons_self c cs))]
    rw [takeWhile_eq_self cs (fun d hd => h d (List.mem_cons_of_mem c hd))]

/-- Leading modifier of an action-call text as the spec describes it: the
first character when it is one of `! # * %`, the empty string otherwise. -/
def leadModifier (s : String) : String :=
  match s.data with
  | c :: _ => if modifierChar c then String.mk [c] else ""
  | [] => ""

/-- Shape of an action-call token text, per the `actionCall` capture group:
an optional modifier character, then `[A-Za-z][A-Za-z0-9_]*`. -/
def isActionCallNameB (s : String) : Bool :=
  match s.data with
  | [] => false
  | c :: rest =>
    if modifierChar c then
      match rest with
      | [] => false
      | d :: rest2 => d.isAlpha && rest2.all identTailChar
    else c.isAlpha && rest.all identTailChar

/-- C5: for every action-call token text, the ActionNode's modifier is the
leading modifier character if present and empty otherwise, its name is the
text with that modifier stripped, and modifier concatenated with name
recovers the original text. -/
theorem actionNode_modifier_spec (s : String) (h : isActionCallNameB s = true) :
    actionModifierOf s = leadModifier s
    ∧ actionNameOf s = String.mk (s.data.drop (leadModifier s).data.length)
    ∧ actionModifierOf s ++ actionNameOf s = s := by
  obtain ⟨cs⟩ := s
  cases cs with
  | nil => exact absurd h (by decide)
  | cons c rest =>
    by_cases hm : modifierChar c = true
    · cases rest with
      | nil =>
        exfalso
        simp only [isActionCallNameB] at h
        rw [if_pos hm] at h
        exact Bool.noConfusion h
      | cons d rest2 =>
        simp only [isActionCallNameB] at h
        rw [if_pos hm] at h
        obtain ⟨hda, hall⟩ := Bool.and_eq_true_iff.mp h
        have hdr : ∀ x ∈ d :: rest2, jsDotChar x = true := by
          intro x hx
          rcases List.mem_cons.mp hx with hx1 | hx2
          · subst hx1
            exact identTail_dot _ (alpha_identTail _ hda)
          · exact identTail_dot _ (List.all_eq_true.mp hall x hx2)
        have htw : (d :: rest2).takeWhile jsDotChar = d :: rest2 := takeWhile_eq_self _ hdr
        refine ⟨?_, ?_, ?_⟩
        · simp [actionModifierOf, leadModifier, hm, htw, List.drop_length]
        · simp [actionNameOf, leadModifier, hm, htw, List.drop_length]
        · simp [actionModifierOf, actionNameOf, hm, htw, List.drop_length]
          rfl
    · simp only [isActionCallNameB] at h
      rw [if_neg hm] at h
      obtain ⟨hca, hall⟩ := Bool.and_eq_true_iff.mp h
      have hdr : ∀ x ∈ c :: rest, jsDotChar x = true := by
        intro x hx
        rcases List.mem_cons.mp hx with hx1 | hx2
        · subst hx1
          exact identTail_dot _ (alpha_identTail _ hca)
        · exact identTail_dot _ (List.all_eq_true.mp hall x hx2)
      have htw : (c :: rest).takeWhile jsDotChar = c :: rest := takeWhile_eq_self _ hdr
      refine ⟨?_, ?_, ?_⟩
      · simp [actionModifierOf, leadModifier, hm, htw, List.drop_length]
      · simp [actionNameOf, leadModifier, hm, htw, List.drop_length]
      · simp [actionModifierOf, actionNameOf, hm, htw, List.drop_length]

/-- Witness for C5 at the concrete action-call texts `!cube` and `cube`. -/
theorem actionNode_modifier_spec_witness :
    actionModifierOf "!cube" = "!" ∧ actionNameOf "!cube" = "cube"
    ∧ actionModifierOf "!cube" ++ actionNameOf "!cube" = "!cube"
    ∧ actionModifierOf "cube" = "" ∧ actionNameOf "cube" = "cube" := by
  have h1 := actionNode_modifier_spec "!cube" (by decide)
  have h2 := actionNode_modifier_spec "cube" (by decide)
  exact ⟨h1.1, h1.2.1, h1.2.2, h2.1, h2.2.1⟩

/-! ## C7: determinism of parsing -/

/-- C7: a successful parse result is a function of the source text alone:
whatever the instance's cache state and whatever file identifier is used, the
same code yields the same RootNode tree (fresh nearley parser and a pure
lexer per call). -/
theorem parse_deterministic (st1 st2 : ParserState) (f1 f2 code : String) (root : RootAst)
    (h : (parse st1 code f1).2 = Except.ok root) :
    (parse st2 code f2).2 = Except.ok root := by
  unfold parse at h ⊢
  cases hr : runParse (feedTokens (lex code)) with
  | ok stmts =>
    simp only [hr] at h ⊢
    exact h
  | error i =>
    simp only [hr] at h
    exact Except.noConfusion h

/-- Witness for C7: the same source parsed with two different states and file
keys gives the same tree. -/
theorem parse_deterministic_witness :
    (parse initState "a=1;" "g").2
      = Except.ok ⟨[Stmt.variableStmt "a" (SValue.number "1" false)]⟩ :=
  parse_deterministic ⟨[], [("f", "a=1;")], []⟩ initState "f" "g" "a=1;"
    ⟨[Stmt.variableStmt "a" (SValue.number "1" false)]⟩ (by with_unfolding_all rfl)

/-! ## C3: the node-tree parent invariant -/

/-- C3: attaching children (at Node construction and via setChildren) sets
each attached child's parent back-reference to the attaching node and stores
the kept children in the given order; consequently, in a heap produced by a
well-formed construction sequence every node is either a root (no parent
field, member of no children list) or has exactly one parent, namely the
unique node whose children list holds it. -/
theorem node_tree_invariant :
    (∀ (a : Arena) (carg : ChildrenArg),
        ((newNode a carg).1.node (newNode a carg).2).children = keptOf carg
      ∧ (∀ c ∈ keptOf carg, c < a.size →
          ((newNode a carg).1.node c).parent = some (newNode a carg).2))
  ∧ (∀ (a : Arena) (t : Nat) (cs : List (Option Nat)),
        ((setChildren a t cs).node t).children = keptList cs
      ∧ ∀ c ∈ keptList cs, ((setChildren a t cs).node c).parent = some t)
  ∧ (∀ steps : List BuildStep, stepsOK emptyArena steps →
      ∀ i, i < (build steps).size →
        (((build steps).node i).parent = none
          ∧ ∀ j, j < (build steps).size → i ∉ ((build steps).node j).children)
        ∨ (∃ j, j < (build steps).size ∧ ((build steps).node i).parent = some j
            ∧ i ∈ ((build steps).node j).children
            ∧ ∀ k, k < (build steps).size → i ∈ ((build steps).node k).children → k = j)) := by
  refine ⟨?_, ?_, ?_⟩
  · intro a carg
    constructor
    · have h := newNode_children a carg a.size
      rw [if_pos rfl] at h
      exact h
    · intro c hc hlt
      have h := newNode_parent a carg c
      rw [if_neg (by omega), if_pos hc] at h
      exact h
  · intro a t cs
    constructor
    · have h := setChildren_children a t cs t
      rw [if_pos rfl] at h
      exact h
    · intro c hc
      have h := setChildren_parent a t cs c
      rw [if_pos hc] at h
      exact h
  · intro steps hok i hi
    obtain ⟨hB, hP, hR, hD⟩ := inv_build steps hok
    cases hp : ((build steps).node i).parent with
    | none =>
      left
      refine ⟨rfl, fun j hj hmem => ?_⟩
      have := hP j hj i hmem
      rw [hp] at this
      exact Option.noConfusion this
    | some j =>
      right
      have hres := hR i hi j hp
      refine ⟨j, hres.1, rfl, hres.2, fun k hk hmemk => ?_⟩
      have := hP k hk i hmemk
      rw [hp] at this
      injection this with hjk
      exact hjk.symm

/-- Concrete construction sequence: a leaf, a node adopting it (with a null
entry filtered out), another leaf, and a setChildren attachment. -/
def demoSteps : List BuildStep :=
  [BuildStep.node ChildrenArg.notArr,
   BuildStep.node (ChildrenArg.arr [some 0, none]),
   BuildStep.node (ChildrenArg.arr []),
   BuildStep.setCh 2 [some 1, none]]

/-- Witness for C3: the invariant instantiated on a concrete build, plus the
two attachment clauses at concrete arguments. -/
theorem node_tree_invariant_witness :
    (((newNode (build demoSteps) (ChildrenArg.arr [some 0, none])).1.node 0).parent
        = some (build demoSteps).size)
  ∧ (((setChildren (build demoSteps) 2 [some 1]).node 1).parent = some 2)
  ∧ ((((build demoSteps).node 0).parent = none
        ∧ ∀ j, j < (build demoSteps).size → 0 ∉ ((build demoSteps).node j).children)
      ∨ (∃ j, j < (build demoSteps).size ∧ ((build demoSteps).node 0).parent = some j
          ∧ 0 ∈ ((build demoSteps).node j).children
          ∧ ∀ k, k < (build demoSteps).size → 0 ∈ ((build demoSteps).node k).children → k = j)) := by
  refine ⟨?_, ?_, ?_⟩
  · exact (node_tree_invariant.1 (build demoSteps) (ChildrenArg.arr [some 0, none])).2 0
      (by decide) (by decide)
  · exact (node_tree_invariant.2.1 (build demoSteps) 2 [some 1]).2 1 (by decide)
  · exact node_tree_invariant.2.2 demoSteps (by decide) 0 (by decide)

/-! ## C2: code-excerpt rendering -/

/-- Ten-line source with the failure at line 6 (token `abc`, width 3,
column 1). -/
def excerptDemoCode : String := "l1\nl2\nl3\nl4\nl5\nabc def\nl7\nl8\nl9\nl10"

/-- Failure location for the ten-line demo. -/
def excerptDemoLoc : Location := ⟨15, 3, 0, 6, 1⟩

/-- Twelve-line source with the failure at line 8. -/
def excerptDemoCode2 : String := "l1\nl2\nl3\nl4\nl5\nl6\nl7\nl8\nl9\nl10\nl11\nl12"

/-- Failure location for the twelve-line demo. -/
def excerptDemoLoc2 : Location := ⟨0, 3, 0, 8, 1⟩

/-- C2 (divergence witness): with the default three context lines, the
excerpt for a failure at line 6 of a ten-line file shows the four lines
l2–l5 before the failing line and only the two lines l7, l8 after it, and
places the caret marker beneath the rendered line 7 instead of beneath the
failing line 6; for a failure at line 8 of a twelve-line file the marker
line does not appear at all. -/
theorem getCodeExcerpt_divergence :
    getCodeExcerpt excerptDemoCode excerptDemoLoc 3
        = "2: l2\n3: l3\n4: l4\n5: l5\n6: abc def\n7: l7\n   ^-^\n8: l8"
    ∧ getCodeExcerpt excerptDemoCode2 excerptDemoLoc2 3
        = "04: l4\n05: l5\n06: l6\n07: l7\n08: l8\n09: l9\n10: l10" :=
  ⟨by with_unfolding_all rfl, by with_unfolding_all rfl⟩

/-! ## C1: error classification -/

/-- Lexer-error check on a parse outcome. -/
def resIsLexerErrorB : Except ScadError RootAst → Bool
  | .error e => e.isLexerErrorB
  | .ok _ => false

/-- Parser-error check on a parse outcome. -/
def resIsParserErrorB : Except ScadError RootAst → Bool
  | .error e => e.isParserErrorB
  | .ok _ => false

/-- The `lastTokens` carried by a parse outcome's error. -/
def resLastTokens : Except ScadError RootAst → List Token
  | .error e => e.lastTokensOf
  | .ok _ => []

theorem mkParserError_isLexerB (c : String) (cache : List Token) :
    (mkParserError c cache).isLexerErrorB = false := rfl

theorem mkParserError_isParserB (c : String) (cache : List Token) :
    (mkParserError c cache).isParserErrorB = true := rfl

theorem mkParserError_lastTokensOf (c : String) (cache : List Token) :
    (mkParserError c cache).lastTokensOf
      = jsSlice cache ((cache.length : Int) - 3) (cache.length : Int) := rfl

theorem mkLexerError_isLexerB (c : String) (last : Token) :
    (mkLexerError c last).isLexerErrorB = true := rfl

theorem mkLexerError_isParserB (c : String) (last : Token) :
    (mkLexerError c last).isParserErrorB = false := rfl

/-- Classification equation when no token was captured. -/
theorem classifyError_none (codeStr : String) (cache : List Token)
    (h : cache.getLast? = none) :
    classifyError codeStr cache = mkParserError codeStr cache := by
  unfold classifyError
  simp only [h]

/-- Classification equation when the last captured token is a lexer-error
token. -/
theorem classifyError_some_lexer (codeStr : String) (cache : List Token) (last : Token)
    (h : cache.getLast? = some last) (hty : last.type = "LexerError") :
    classifyError codeStr cache = mkLexerError codeStr last := by
  unfold classifyError
  simp only [h]
  rw [if_pos hty]

/-- Classification equation when the last captured token is an ordinary
token. -/
theorem classifyError_some_other (codeStr : String) (cache : List Token) (last : Token)
    (h : cache.getLast? = some last) (hty : ¬(last.type = "LexerError")) :
    classifyError codeStr cache = mkParserError codeStr cache := by
  unfold classifyError
  simp only [h]
  rw [if_neg hty]

/-- Behaviour of the catch-block classification as a function of the captured
token list. -/
theorem classifyError_spec (codeStr : String) (cache : List Token) :
    ((classifyError codeStr cache).isLexerErrorB = true ↔
        ∃ last, cache.getLast? = some last ∧ last.type = "LexerError")
    ∧ ((classifyError codeStr cache).isParserErrorB = true ↔
        ∀ last, cache.getLast? = some last → ¬(last.type = "LexerError"))
    ∧ ((classifyError codeStr cache).isParserErrorB = true →
        (classifyError codeStr cache).lastTokensOf
          = jsSlice cache ((cache.length : Int) - 3) (cache.length : Int))
    ∧ ((classifyError codeStr cache).isParserErrorB = true → 3 ≤ cache.length →
        (classifyError codeStr cache).lastTokensOf = cache.drop (cache.length - 3)) := by
  cases hl : cache.getLast? with
  | none =>
    rw [classifyError_none codeStr cache hl]
    refine ⟨⟨?_, ?_⟩, ⟨?_, ?_⟩, ?_, ?_⟩
    · intro hf
      rw [mkParserError_isLexerB] at hf
      exact Bool.noConfusion hf
    · rintro ⟨last, hlast, -⟩
      exact Option.noConfusion hlast
    · intro _ last hlast
      exact Option.noConfusion hlast
    · intro _
      exact mkParserError_isParserB _ _
    · intro _
      exact mkParserError_lastTokensOf _ _
    · intro _ hlen
      rw [mkParserError_lastTokensOf]
      exact jsSlice_last3 cache hlen
  | some last =>
    by_cases hty : last.type = "LexerError"
    · rw [classifyError_some_lexer codeStr cache last hl hty]
      refine ⟨⟨?_, ?_⟩, ⟨?_, ?_⟩, ?_, ?_⟩
      · intro _
        exact ⟨last, rfl, hty⟩
      · intro _
        exact mkLexerError_isLexerB _ _
      · intro hf
        rw [mkLexerError_isParserB] at hf
        exact Bool.noConfusion hf
      · intro hall
        exact absurd hty (hall last rfl)
      · intro hf
        rw [mkLexerError_isParserB] at hf
        exact Bool.noConfusion hf
      · intro hf
        rw [mkLexerError_isParserB] at hf
        exact Bool.noConfusion hf
    · rw [classifyError_some_other codeStr cache last hl hty]
      refine ⟨⟨?_, ?_⟩, ⟨?_, ?_⟩, ?_, ?_⟩
      · intro hf
        rw [mkParserError_isLexerB] at hf
        exact Bool.noConfusion hf
      · rintro ⟨last2, hlast2, hty2⟩
        injection hlast2 with hl2
        exact absurd (hl2 ▸ hty2) hty
      · intro _ last2 hlast2
        injection hlast2 with hl2
        rw [← hl2]
        exact hty
      · intro _
        exact mkParserError_isParserB _ _
      · intro _
        exact mkParserError_lastTokensOf _ _
      · intro _ hlen
        rw [mkParserError_lastTokensOf]
        exact jsSlice_last3 cache hlen

/-- C1 (amended): every parse failure is classified as a LexerError exactly
when the last captured token for the file is an unrecognized-input token and
as a ParserError otherwise; a ParserError carries the JavaScript slice
`tokenCache.slice(n - 3, n)` of the captured tokens, which is the last three
tokens whenever at least three were captured; `&%!;` raises a LexerError and
`myVar module ;` raises a ParserError. -/
theorem parse_error_classification :
    (∀ (st : ParserState) (code file : String) (e : ScadError),
        (parse st code file).2 = Except.error e →
        ∃ cache, assocGet? (parse st code file).1.tokenCache file = some cache
          ∧ (e.isLexerErrorB = true ↔
              ∃ last, cache.getLast? = some last ∧ last.type = "LexerError")
          ∧ (e.isParserErrorB = true ↔
              ∀ last, cache.getLast? = some last → ¬(last.type = "LexerError"))
          ∧ (e.isParserErrorB = true →
              e.lastTokensOf = jsSlice cache ((cache.length : Int) - 3) (cache.length : Int))
          ∧ (e.isParserErrorB = true → 3 ≤ cache.length →
              e.lastTokensOf = cache.drop (cache.length - 3)))
  ∧ resIsLexerErrorB
      (parseAST (fun _ => "") initState (some "lexer_error.scad") (some "&%!;")).2 = true
  ∧ resIsParserErrorB
      (parseAST (fun _ => "") initState (some "parser_error.scad") (some "myVar module ;")).2
        = true := by
  refine ⟨?_, by with_unfolding_all rfl, by with_unfolding_all rfl⟩
  intro st code file e h
  unfold parse at h ⊢
  cases hr : runParse (feedTokens (lex code)) with
  | ok stmts =>
    simp only [hr] at h
    exact Except.noConfusion h
  | error i =>
    simp only [hr] at h ⊢
    injection h with he
    subst he
    refine ⟨(feedTokens (lex code)).take (i + 1), assocGet_set _ _ _, ?_, ?_, ?_, ?_⟩
    · exact (classifyError_spec _ _).1
    · exact (classifyError_spec _ _).2.1
    · exact (classifyError_spec _ _).2.2.1
    · exact (classifyError_spec _ _).2.2.2

/-- C1 counterexample for the claim as frozen: on `myVar module ;` two
tokens are captured before the failure, but the raised ParserError's
`lastTokens` holds only the single token `module` (JavaScript
`slice(2 - 3, 2)` normalizes the negative start to index 1), so the error
does not carry the last three (here: all) tokens seen. -/
theorem parse_lastTokens_counterexample :
    resIsParserErrorB
        (parseAST (fun _ => "") initState (some "parser_error.scad")
          (some "myVar module ;")).2 = true
  ∧ resLastTokens
        (parseAST (fun _ => "") initState (some "parser_error.scad")
          (some "myVar module ;")).2
      = [⟨"identifier", "module", "module", 6, 6, 1, 7, 0⟩]
  ∧ assocGet?
        (parseAST (fun _ => "") initState (some "parser_error.scad")
          (some "myVar module ;")).1.tokenCache "parser_error.scad"
      = some [⟨"identifier", "myVar", "myVar", 0, 5, 1, 1, 0⟩,
          ⟨"identifier", "module", "module", 6, 6, 1, 7, 0⟩] := by
  refine ⟨?_, ?_, ?_⟩ <;> with_unfolding_all rfl

/-- Witness for C1 at the concrete failing input `&%!;`. -/
theorem parse_error_classification_witness :
    ∃ cache, assocGet? (parse ⟨[], [("w", "&%!;")], []⟩ "&%!;" "w").1.tokenCache "w"
        = some cache
      ∧ ∃ last, cache.getLast? = some last ∧ last.type = "LexerError" := by
  obtain ⟨cache, hc, hiff, -, -, -⟩ :=
    parse_error_classification.1 ⟨[], [("w", "&%!;")], []⟩ "&%!;" "w"
      (classifyError "&%!;" [⟨"LexerError", "&%!;", "&%!;", 0, 4, 1, 1, 0⟩])
      (by with_unfolding_all rfl)
  exact ⟨cache, hc, hiff.mp (by with_unfolding_all rfl)⟩

end Scad
